import Mathlib

/-!
Verification development for the AList batch downloader
(`alist_download.py`, a single-file Python program).

The embedding models:
* path strings and the Python string operations the program uses
  (`os.path.join` + `.replace('\\', '/')`, `str.rstrip('/')`,
  `'/'.join(...spl...)`, substring matching with `in`);
* the remote tree returned by the AList `fs/list` API as an inductive
  tree `RNode` (the program only ever observes `name`, `is_dir`, `size`);
* the completion ledger (`self.downloaded_files`, a set of full logical
  paths persisted as a JSON array under the key `downloaded_files`);
* the recursive traversals `get_directory_stats`, `recursive_download`,
  `_count_downloaded_files_recursive`, the non-recursive branch of
  `batch_download`, and the recursive branch of `show_download_status`;
* remote directory creation `_ensure_remote_directory` /
  `_check_directory_exists` over an abstract set of created directories,
  with an event trace recording remote calls;
* the single-file dispatch `_is_single_file` of `batch_download`.

The external transfer command (wget) is modelled by an oracle
`xfer : String → Bool` giving the success of transferring a given full
logical path; a "completed" run is a run with the all-true oracle.
-/

namespace AList

/-! ### Character-level string helpers

Python's string primitives used by the program, written over `String.data`
so that every definition is structurally recursive and kernel-reducible.
-/

/-- Python `s.split('/')`: split a character list at every `'/'`,
keeping empty segments (the result is always nonempty). -/
def splitOnSlashChars : List Char → List (List Char)
  | [] => [[]]
  | x :: xs =>
      let r := splitOnSlashChars xs
      if x = '/' then [] :: r
      else
        match r with
        | [] => [[x]]
        | h :: t => (x :: h) :: t

/-- Python `remote_path.split('/')`. -/
def split_slash (s : String) : List String :=
  (splitOnSlashChars s.data).map (fun cs => String.mk cs)

/-- Python `'/'.join(segments)`. -/
def join_slash : List String → String
  | [] => ""
  | [x] => x
  | x :: y :: ys => x ++ "/" ++ join_slash (y :: ys)

/-- Python `s.rstrip('/')`: drop every trailing `'/'`. -/
def rstrip_slash (s : String) : String :=
  String.mk ((s.data.reverse.dropWhile (fun c => c = '/')).reverse)

/-- Python `s.replace('\\', '/')`: for one-character patterns `str.replace`
is exactly a character map. -/
def replace_backslashes (s : String) : String :=
  String.mk (s.data.map (fun c => if c = '\\' then '/' else c))

/-- Whether the string starts with the given character. -/
def str_starts_with_char (s : String) (c : Char) : Bool :=
  match s.data with
  | [] => false
  | x :: _ => decide (x = c)

/-- Whether the string ends with the given character. -/
def str_ends_with_char (s : String) (c : Char) : Bool :=
  match s.data.getLast? with
  | none => false
  | some x => decide (x = c)

/-- Python `posixpath.join(a, b)` (the host convention on Linux, where the
program is normally run): an absolute `b` discards `a`; an empty `a` or an
`a` ending in the separator is concatenated directly; otherwise the
separator is inserted. -/
def osPathJoin (a b : String) : String :=
  if str_starts_with_char b '/' then b
  else if a = "" ∨ str_ends_with_char a '/' then a ++ b
  else a ++ "/" ++ b

/-- The separator logic of `ntpath.join(a, b)` (the Windows host
convention), drive letters aside: the separator inserted is `'\\'` and
either separator character counts at the boundaries. -/
def winPathJoin (a b : String) : String :=
  if str_starts_with_char b '/' ∨ str_starts_with_char b '\\' then b
  else if a = "" ∨ str_ends_with_char a '/' ∨ str_ends_with_char a '\\' then a ++ b
  else a ++ "\\" ++ b

/-- Whether `pat` occurs at the start of `s` (character lists). -/
def chars_start_with : List Char → List Char → Bool
  | [], _ => true
  | _ :: _, [] => false
  | x :: xs, y :: ys => decide (x = y) && chars_start_with xs ys

/-- Whether `pat` occurs somewhere inside the character list. -/
def chars_contain (pat : List Char) : List Char → Bool
  | [] => pat.isEmpty
  | y :: ys => chars_start_with pat (y :: ys) || chars_contain pat ys

/-- Python `pat in s` (substring containment). -/
def str_contains (s pat : String) : Bool :=
  chars_contain pat.data s.data

/-- `alist_download.py:94` — the ledger key recorded for a file:
`os.path.join(remote_path, filename).replace('\\', '/')` (Linux host). -/
def full_file_path (remote_path filename : String) : String :=
  replace_backslashes (osPathJoin remote_path filename)

/-- The same ledger key computed under the Windows join convention. -/
def full_file_path_win (remote_path filename : String) : String :=
  replace_backslashes (winPathJoin remote_path filename)

/-- `alist_download.py:650-654` and `747-755` — the parent of a remote
path: `'/'.join(remote_path.rstrip('/').split('/')[:-1])`, defaulting to
`"/"` when that join is empty. -/
def parent_dir (remote_path : String) : String :=
  let parent := join_slash (split_slash (rstrip_slash remote_path)).dropLast
  if parent = "" then "/" else parent

/-- `remote_path.rstrip('/').split('/')[-1]` — the final path segment. -/
def last_segment (remote_path : String) : String :=
  (split_slash (rstrip_slash remote_path)).getLastD ""

/-! ### Data model -/

/-- One entry of an AList `fs/list` response, as the program reads it:
`item['name']`, `item['is_dir']`, `item['size']`. -/
structure Entry where
  name : String
  is_dir : Bool
  size : Nat
deriving DecidableEq

/-- A remote tree node: the program's view of the remote file system.
A `dir` node carries the listing that `get_file_list` returns for it;
a `file` node carries its size. The remote listing is assumed unchanged
between the runs a theorem talks about (the claims' hypothesis). -/
inductive RNode where
  | file (name : String) (size : Nat) : RNode
  | dir (name : String) (children : List RNode) : RNode

/-- `item['is_dir']`. -/
def RNode.isDir : RNode → Bool
  | .file _ _ => false
  | .dir _ _ => true

/-- `item['name']`. -/
def RNode.name : RNode → String
  | .file n _ => n
  | .dir n _ => n

/-- `item['size']` (only ever read on file entries). -/
def RNode.size : RNode → Nat
  | .file _ s => s
  | .dir _ _ => 0

/-- `files = [f for f in file_list if not f['is_dir']]` followed by
`if file_pattern: files = [f for f in files if file_pattern in f['name']]`
(an empty pattern string is falsy in Python, so it filters nothing). -/
def filter_files (file_pattern : Option String) (file_list : List RNode) : List RNode :=
  let files := file_list.filter (fun f => !f.isDir)
  match file_pattern with
  | none => files
  | some pat => if pat = "" then files else files.filter (fun f => str_contains f.name pat)

/-- `directories = [f for f in file_list if f['is_dir']]`. -/
def filter_dirs (file_list : List RNode) : List RNode :=
  file_list.filter (fun f => f.isDir)

/-- `max_depth is not None and current_depth > max_depth`
(`alist_download.py:347,406`). -/
def depth_exceeded (max_depth : Option Nat) (current_depth : Nat) : Bool :=
  match max_depth with
  | none => false
  | some m => decide (current_depth > m)

/-- `files=..., size=..., dirs=...` as returned by `get_directory_stats`. -/
structure Stats where
  files : Nat
  size : Nat
  dirs : Nat
deriving DecidableEq

/-- `sum(f['size'] for f in files)`. -/
def level_size (files : List RNode) : Nat :=
  (files.map RNode.size).sum

/-! ### The completion ledger -/

/-- `alist_download.py:62-64` — `filename in self.downloaded_files`
(set membership on full logical paths). -/
def is_file_downloaded (downloaded : List String) (path : String) : Bool :=
  decide (path ∈ downloaded)

/-- `alist_download.py:49-60` — `save_downloaded_file`: the in-memory set
gains the path only when a ledger file is bound
(`if self.success_log_file:`); `bound` models that guard. -/
def save_downloaded_file (bound : Bool) (downloaded : List String) (path : String) : List String :=
  if bound then path :: downloaded else downloaded

/-- The array the ledger persists: `json.dump({'downloaded_files':
list(self.downloaded_files), ...})` at `alist_download.py:54-58`.
`list(set)` enumerates the set in an unspecified order, which the
round-trip theorem quantifies over as an arbitrary permutation. -/
def persisted_downloaded_files (downloaded : List String) : List String :=
  downloaded

/-- The state of the backing file `<root>/.download_success.json` as
`load_downloaded_files` can encounter it: absent, unreadable or malformed
JSON, or a JSON document whose `downloaded_files` key is absent or holds
an array of paths. -/
inductive LedgerFile where
  | missing : LedgerFile
  | unreadable : LedgerFile
  | valid (downloaded_files : Option (List String)) : LedgerFile

/-- `alist_download.py:35-47` — `load_downloaded_files`: returns the
loaded in-memory set together with whether the failure warning
(`读取下载记录失败`) was printed. A missing file or a document without the
key yields the empty set silently; an unreadable/malformed file yields the
empty set with a warning; nothing raises. -/
def load_downloaded_files : LedgerFile → List String × Bool
  | LedgerFile.missing => ([], false)
  | LedgerFile.unreadable => ([], true)
  | LedgerFile.valid none => ([], false)
  | LedgerFile.valid (some entries) => (entries, false)

/-- The ledger state `clear_download_log` acts on: whether the backing
file exists, and the in-memory set. -/
structure LedgerState where
  backing_file_exists : Bool
  downloaded : List String
deriving DecidableEq

/-- `alist_download.py:244-252` — `clear_download_log`: the file is
removed and the in-memory set reset only inside the
`if ... os.path.exists(...)` branch; with the backing file absent the
method does nothing (in particular the in-memory set is kept). -/
def clear_download_log (st : LedgerState) : LedgerState :=
  if st.backing_file_exists then LedgerState.mk false [] else st

/-! ### Single-file transfer and the traversals -/

/-- `alist_download.py:91-149` — `download_file` on remote directory
`remote_path` and entry `filename`: compute the full logical path; if it
is already in the ledger, skip (return success, no wget run, ledger
untouched); otherwise run wget (the oracle `xfer`), and on success record
the path via `save_downloaded_file`. Result: (new ledger, returned
success, whether the external command was invoked). -/
def download_file (xfer : String → Bool) (bound : Bool) (downloaded : List String)
    (remote_path filename : String) : List String × Bool × Bool :=
  let full := full_file_path remote_path filename
  if is_file_downloaded downloaded full then (downloaded, true, false)
  else if xfer full then (save_downloaded_file bound downloaded full, true, true)
  else (downloaded, false, true)

/-- The per-directory download loop (`alist_download.py:375-380` and
`230-238`): fold `download_file` over the file entries in listing order,
counting successes and external invocations. Batch flows always bind the
ledger first, so `bound = true` here. -/
def download_files (xfer : String → Bool) (remote_path : String) (downloaded : List String) :
    List RNode → List String × Nat × Nat
  | [] => (downloaded, 0, 0)
  | f :: rest =>
      let r := download_file xfer true downloaded remote_path f.name
      let acc := download_files xfer remote_path r.1 rest
      (acc.1, (if r.2.1 then 1 else 0) + acc.2.1, (if r.2.2 then 1 else 0) + acc.2.2)

/-- Outcome of a transfer run: final ledger, number of files reported
successful, number of files processed, number of external invocations. -/
structure RunAcc where
  ledger : List String
  succ : Nat
  attempted : Nat
  invoked : Nat
deriving DecidableEq

/-- The subdirectory loop of `recursive_download`
(`alist_download.py:388-402`): for each directory entry, recurse into
`f"{remote_path}/{directory['name']}"` at depth `current_depth + 1`.
The body of the recursive call (depth guard, empty-listing guard, file
loop, then subdirectory loop) is inlined here; `recursive_download` below
is that same body at the root. -/
def download_subdirs (xfer : String → Bool) (file_pattern : Option String)
    (max_depth : Option Nat) (remote_path : String) (current_depth : Nat)
    (downloaded : List String) : List RNode → RunAcc
  | [] => RunAcc.mk downloaded 0 0 0
  | RNode.file _ _ :: rest =>
      download_subdirs xfer file_pattern max_depth remote_path current_depth downloaded rest
  | RNode.dir nm c :: rest =>
      let sub_path := remote_path ++ "/" ++ nm
      let a1 :=
        if depth_exceeded max_depth (current_depth + 1) then RunAcc.mk downloaded 0 0 0
        else if c.isEmpty then RunAcc.mk downloaded 0 0 0
        else
          let files := filter_files file_pattern c
          let r := download_files xfer sub_path downloaded files
          let a := download_subdirs xfer file_pattern max_depth sub_path (current_depth + 1) r.1 c
          RunAcc.mk a.ledger (r.2.1 + a.succ) (files.length + a.attempted) (r.2.2 + a.invoked)
      let a2 := download_subdirs xfer file_pattern max_depth remote_path current_depth a1.ledger rest
      RunAcc.mk a2.ledger (a1.succ + a2.succ) (a1.attempted + a2.attempted) (a1.invoked + a2.invoked)

/-- `alist_download.py:345-402` — `recursive_download`: stop beyond the
depth cap; stop on an empty (or failed) listing; download the current
level's filtered files; then recurse into each subdirectory. -/
def recursive_download (xfer : String → Bool) (file_pattern : Option String)
    (max_depth : Option Nat) (remote_path : String) (current_depth : Nat)
    (listing : List RNode) (downloaded : List String) : RunAcc :=
  if depth_exceeded max_depth current_depth then RunAcc.mk downloaded 0 0 0
  else if listing.isEmpty then RunAcc.mk downloaded 0 0 0
  else
    let files := filter_files file_pattern listing
    let r := download_files xfer remote_path downloaded files
    let a := download_subdirs xfer file_pattern max_depth remote_path current_depth r.1 listing
    RunAcc.mk a.ledger (r.2.1 + a.succ) (files.length + a.attempted) (r.2.2 + a.invoked)

/-- The subdirectory loop of `get_directory_stats`
(`alist_download.py:428-438`), with the recursive call's body (depth
guard, empty-listing guard, level counts) inlined as in
`download_subdirs`. -/
def stats_subdirs (file_pattern : Option String) (max_depth : Option Nat)
    (current_depth : Nat) : List RNode → Stats
  | [] => Stats.mk 0 0 0
  | RNode.file _ _ :: rest => stats_subdirs file_pattern max_depth current_depth rest
  | RNode.dir _ c :: rest =>
      let s1 :=
        if depth_exceeded max_depth (current_depth + 1) then Stats.mk 0 0 0
        else if c.isEmpty then Stats.mk 0 0 0
        else
          let files := filter_files file_pattern c
          let sub := stats_subdirs file_pattern max_depth (current_depth + 1) c
          Stats.mk (files.length + sub.files) (level_size files + sub.size)
            ((filter_dirs c).length + sub.dirs)
      let s2 := stats_subdirs file_pattern max_depth current_depth rest
      Stats.mk (s1.files + s2.files) (s1.size + s2.size) (s1.dirs + s2.dirs)

/-- `alist_download.py:404-440` — `get_directory_stats`: zero beyond the
depth cap or on an empty listing; otherwise the current level's filtered
file count, byte size and directory count, plus the recursive sums over
every subdirectory. -/
def get_directory_stats (file_pattern : Option String) (max_depth : Option Nat)
    (current_depth : Nat) (listing : List RNode) : Stats :=
  if depth_exceeded max_depth current_depth then Stats.mk 0 0 0
  else if listing.isEmpty then Stats.mk 0 0 0
  else
    let files := filter_files file_pattern listing
    let sub := stats_subdirs file_pattern max_depth current_depth listing
    Stats.mk (files.length + sub.files) (level_size files + sub.size)
      ((filter_dirs listing).length + sub.dirs)

/-- The subdirectory loop of `_count_downloaded_files_recursive`
(`alist_download.py:337-341`), recursive body inlined; note the function
has no depth parameter at all. -/
def count_downloaded_subdirs (downloaded : List String) (file_pattern : Option String)
    (remote_path : String) : List RNode → Nat
  | [] => 0
  | RNode.file _ _ :: rest => count_downloaded_subdirs downloaded file_pattern remote_path rest
  | RNode.dir nm c :: rest =>
      let sub_path := remote_path ++ "/" ++ nm
      (if c.isEmpty then 0
       else
         (filter_files file_pattern c).countP
             (fun f => is_file_downloaded downloaded (full_file_path sub_path f.name))
           + count_downloaded_subdirs downloaded file_pattern sub_path c)
        + count_downloaded_subdirs downloaded file_pattern remote_path rest

/-- `alist_download.py:319-343` — `_count_downloaded_files_recursive`:
count, over the whole tree with no depth cap, the filtered files whose
full logical path is in the ledger. -/
def count_downloaded_files_recursive (downloaded : List String) (file_pattern : Option String)
    (remote_path : String) (listing : List RNode) : Nat :=
  if listing.isEmpty then 0
  else
    (filter_files file_pattern listing).countP
        (fun f => is_file_downloaded downloaded (full_file_path remote_path f.name))
      + count_downloaded_subdirs downloaded file_pattern remote_path listing

/-- `alist_download.py:268-288` — the recursive branch of
`show_download_status` for a directory path: statistics are taken with
`get_directory_stats(remote_path, file_pattern)` — no depth cap is
passed — and when no file matches the method prints a message and returns
nothing; otherwise it reports `(downloaded_count, total_count)`. -/
def show_download_status_recursive (downloaded : List String) (file_pattern : Option String)
    (remote_path : String) (listing : List RNode) : Option (Nat × Nat) :=
  let stats := get_directory_stats file_pattern none 0 listing
  if stats.files = 0 then none
  else some (count_downloaded_files_recursive downloaded file_pattern remote_path listing,
    stats.files)

/-- `alist_download.py:183-242` — the non-recursive branch of
`batch_download`: list once, keep non-directories matching the pattern,
drop entries whose full path is already in the ledger, and run
`download_file` over the remainder (each early return contributes a
no-op run). -/
def batch_download_non_recursive (xfer : String → Bool) (file_pattern : Option String)
    (remote_path : String) (listing : List RNode) (downloaded : List String) : RunAcc :=
  if listing.isEmpty then RunAcc.mk downloaded 0 0 0
  else
    let files := filter_files file_pattern listing
    if files.isEmpty then RunAcc.mk downloaded 0 0 0
    else
      let remaining := files.filter
        (fun f => !is_file_downloaded downloaded (full_file_path remote_path f.name))
      if remaining.isEmpty then RunAcc.mk downloaded 0 0 0
      else
        let r := download_files xfer remote_path downloaded remaining
        RunAcc.mk r.1 r.2.1 remaining.length r.2.2

/-- `alist_download.py:151-242` — `batch_download` once the path has been
recognised as a directory: the recursive branch first takes
`get_directory_stats` with the depth cap and aborts when zero files
match; otherwise it runs `recursive_download`. The non-recursive branch
ignores the depth cap entirely. -/
def batch_download_directory (xfer : String → Bool) (recursive : Bool)
    (file_pattern : Option String) (max_depth : Option Nat) (remote_path : String)
    (listing : List RNode) (downloaded : List String) : RunAcc :=
  if recursive then
    if (get_directory_stats file_pattern max_depth 0 listing).files = 0 then
      RunAcc.mk downloaded 0 0 0
    else recursive_download xfer file_pattern max_depth remote_path 0 listing downloaded
  else batch_download_non_recursive xfer file_pattern remote_path listing downloaded

/-! ### Specification-side reachable files

`spec_reachable_files` follows the specification's words, not the code:
the matching non-directory entries reachable within the depth cap, root
at depth 0, recursion stopped once the current depth exceeds the cap,
listed in pre-order (files of a directory before its subdirectories) with
their full logical paths and sizes. -/

/-- Reachable matching files contributed by the subdirectories of a
listing (specification side). -/
def spec_reachable_sub (file_pattern : Option String) (max_depth : Option Nat)
    (remote_path : String) (current_depth : Nat) : List RNode → List (String × Nat)
  | [] => []
  | RNode.file _ _ :: rest =>
      spec_reachable_sub file_pattern max_depth remote_path current_depth rest
  | RNode.dir nm c :: rest =>
      let sub_path := remote_path ++ "/" ++ nm
      (if depth_exceeded max_depth (current_depth + 1) then []
       else
         (filter_files file_pattern c).map (fun f => (full_file_path sub_path f.name, f.size))
           ++ spec_reachable_sub file_pattern max_depth sub_path (current_depth + 1) c)
        ++ spec_reachable_sub file_pattern max_depth remote_path current_depth rest

/-- The matching files reachable within the depth cap, with their full
logical path and size (specification side). -/
def spec_reachable_files (file_pattern : Option String) (max_depth : Option Nat)
    (remote_path : String) (current_depth : Nat) (listing : List RNode) : List (String × Nat) :=
  if depth_exceeded max_depth current_depth then []
  else
    (filter_files file_pattern listing).map
        (fun f => (full_file_path remote_path f.name, f.size))
      ++ spec_reachable_sub file_pattern max_depth remote_path current_depth listing

/-! ### Remote directory creation -/

/-- A remote call made by the directory ensurer: an existence check
(one `fs/list` of the parent) or a creation request (`fs/mkdir`). -/
inductive REvent where
  | check (path : String) : REvent
  | mkdir (path : String) : REvent
deriving DecidableEq

/-- The model of the remote server used by the ensurer: the set (list) of
directory paths that exist; listing a path returns one directory entry
for every existing directory whose parent is that path. -/
def remote_listing (created : List String) (path : String) : List Entry :=
  created.filterMap (fun d =>
    if parent_dir d = path then some (Entry.mk (last_segment d) true 0) else none)

/-- `alist_download.py:648-664` — `_check_directory_exists`: list the
parent directory and search for an entry whose name equals the final
segment with `is_dir` true. -/
def check_directory_exists (created : List String) (remote_path : String) : Bool :=
  let dir_name := last_segment remote_path
  (remote_listing created (parent_dir remote_path)).any
    (fun item => item.is_dir && decide (item.name = dir_name))

/-- `alist_download.py:666-679` — `_create_directory`, with the server
accepting the request: the directory is added and success is returned
(conflict recovery is outside the claims modelled here). -/
def create_directory (created : List String) (remote_path : String) :
    List String × Bool × List REvent :=
  (remote_path :: created, true, [REvent.mkdir remote_path])

/-- `alist_download.py:628-646` — `_ensure_remote_directory`, with a fuel
argument bounding the parent recursion (each recursive call is on the
strictly shorter parent path, so `length + 1` fuel always suffices):
rstrip the path; a root or empty path is trivially true with no remote
call; check existence via the parent listing; otherwise recursively
ensure the parent (when it is neither empty nor the root) and then create
the path itself. The trace records every remote call in order. -/
def ensure_remote_directory_aux (created : List String) (remote_path : String) :
    Nat → List String × Bool × List REvent
  | 0 => (created, false, [])
  | fuel + 1 =>
      let path := rstrip_slash remote_path
      if path = "" ∨ path = "/" then (created, true, [])
      else if check_directory_exists created path then (created, true, [REvent.check path])
      else
        let parent := join_slash (split_slash path).dropLast
        if parent ≠ "" ∧ parent ≠ "/" then
          let r := ensure_remote_directory_aux created parent fuel
          if r.2.1 then
            let c := create_directory r.1 path
            (c.1, c.2.1, REvent.check path :: (r.2.2 ++ c.2.2))
          else (r.1, false, REvent.check path :: r.2.2)
        else
          let c := create_directory created path
          (c.1, c.2.1, REvent.check path :: c.2.2)

/-- `_ensure_remote_directory` at sufficient fuel. -/
def ensure_remote_directory (created : List String) (remote_path : String) :
    List String × Bool × List REvent :=
  ensure_remote_directory_aux created remote_path (remote_path.length + 1)

/-! ### Single-file routing -/

/-- `alist_download.py:747-768` — `_is_single_file`: list the parent of
the path and look for an entry whose name equals the final segment with
`is_dir` false. -/
def is_single_file (listing_of : String → List Entry) (remote_path : String) : Bool :=
  let filename := last_segment remote_path
  (listing_of (parent_dir remote_path)).any
    (fun item => decide (item.name = filename) && !item.is_dir)

/-- Which engine `batch_download` dispatches to. -/
inductive BatchRoute where
  | single : BatchRoute
  | directory : BatchRoute
deriving DecidableEq

/-- `alist_download.py:151-160` — the dispatch at the top of
`batch_download`: a path recognised by `_is_single_file` goes to
`_download_single_file` (no tree traversal), anything else to the
directory engine; the `recursive` flag and depth cap play no part in the
dispatch. -/
def batch_download_route (listing_of : String → List Entry) (remote_path : String)
    (recursive : Bool) (max_depth : Option Nat) : BatchRoute :=
  if is_single_file listing_of remote_path then BatchRoute.single else BatchRoute.directory

end AList

namespace AList

/-! ### Helper lemmas -/

/-- Mapping the backslash replacement over characters none of which is a
backslash changes nothing. -/
theorem map_replace_eq_self (l : List Char) (h : ∀ c ∈ l, c ≠ '\\') :
    l.map (fun c => if c = '\\' then '/' else c) = l := by
  induction l with
  | nil => rfl
  | cons x xs ih => simp_all

/-- `replace_backslashes` is the identity on backslash-free strings. -/
theorem replace_backslashes_eq_self (s : String) (h : ∀ c ∈ s.data, c ≠ '\\') :
    replace_backslashes s = s := by
  unfold replace_backslashes
  rw [map_replace_eq_self s.data h]

/-- A string none of whose characters is `c` does not start with `c`. -/
theorem str_starts_with_char_eq_false (s : String) (c : Char) (h : ∀ ch ∈ s.data, ch ≠ c) :
    str_starts_with_char s c = false := by
  unfold str_starts_with_char
  cases hd : s.data with
  | nil => rfl
  | cons x xs =>
      have hx : x ∈ s.data := by rw [hd]; exact List.mem_cons_self x xs
      simp [h x hx]

/-- A string none of whose characters is `c` does not end with `c`. -/
theorem str_ends_with_char_eq_false (s : String) (c : Char) (h : ∀ ch ∈ s.data, ch ≠ c) :
    str_ends_with_char s c = false := by
  unfold str_ends_with_char
  cases hl : s.data.getLast? with
  | none => rfl
  | some x =>
      have hx := List.mem_of_mem_getLast? hl
      simp [h x hx]

/-! ### C4 — ledger round-trip -/

/-- C4: persisting the ledger (the `downloaded_files` JSON array
enumerates the in-memory set in some order) and reloading any
permutation of that array yields a completed-set with exactly the same
membership, for every path. -/
theorem c4_ledger_round_trip (downloaded arr : List String)
    (h : arr.Perm (persisted_downloaded_files downloaded)) (path : String) :
    is_file_downloaded (load_downloaded_files (LedgerFile.valid (some arr))).1 path
      = is_file_downloaded downloaded path := by
  simp only [load_downloaded_files, is_file_downloaded, persisted_downloaded_files] at *
  exact decide_eq_decide.mpr h.mem_iff

/-- C4 witness: a two-entry ledger serialized and reloaded in reversed
order keeps its membership. -/
theorem c4_ledger_round_trip_witness :
    is_file_downloaded (load_downloaded_files (LedgerFile.valid (some ["b", "a"]))).1 "a"
      = is_file_downloaded ["a", "b"] "a" :=
  c4_ledger_round_trip ["a", "b"] ["b", "a"] (by decide) "a"

/-! ### C5 — path normalization -/

/-- C5: for a nonempty directory path with no trailing separator and an
entry name that is not absolute, both free of backslashes (the shape of
every directory path and entry name the program forms), the recorded
LogicalPath is the directory path, a forward slash, and the name — under
the Linux join convention and under the Windows join convention alike
(every backslash the host introduces is replaced). -/
theorem c5_path_normalization (remote_path filename : String)
    (h1 : ∀ ch ∈ remote_path.data, ch ≠ '\\')
    (h2 : ∀ ch ∈ filename.data, ch ≠ '\\')
    (h3 : str_starts_with_char filename '/' = false)
    (h4 : remote_path ≠ "")
    (h5 : str_ends_with_char remote_path '/' = false) :
    full_file_path remote_path filename = remote_path ++ "/" ++ filename
    ∧ full_file_path_win remote_path filename = remote_path ++ "/" ++ filename := by
  have h2s : str_starts_with_char filename '\\' = false :=
    str_starts_with_char_eq_false filename '\\' h2
  have h1e : str_ends_with_char remote_path '\\' = false :=
    str_ends_with_char_eq_false remote_path '\\' h1
  have hslash : ∀ ch ∈ ("/" : String).data, ch ≠ '\\' := by decide
  have hall : ∀ ch ∈ (remote_path ++ "/" ++ filename).data, ch ≠ '\\' := by
    intro ch hch
    rw [String.data_append, String.data_append] at hch
    rcases List.mem_append.1 hch with h' | h'
    · rcases List.mem_append.1 h' with h'' | h''
      · exact h1 ch h''
      · exact hslash ch h''
    · exact h2 ch h'
  constructor
  · have hjoin : osPathJoin remote_path filename = remote_path ++ "/" ++ filename := by
      simp [osPathJoin, h3, h4, h5]
    unfold full_file_path
    rw [hjoin]
    exact replace_backslashes_eq_self _ hall
  · have hjoin : winPathJoin remote_path filename = remote_path ++ "\\" ++ filename := by
      simp [winPathJoin, h3, h2s, h4, h5, h1e]
    unfold full_file_path_win
    rw [hjoin]
    unfold replace_backslashes
    have h1m := map_replace_eq_self remote_path.data h1
    have h2m := map_replace_eq_self filename.data h2
    apply String.ext
    simp only [String.data_append]
    rw [List.map_append, List.map_append, h1m, h2m]
    simp

/-- C5 witness: joining directory `a/b` and name `c.txt` yields exactly
`a/b/c.txt` under both host conventions. -/
theorem c5_path_normalization_witness :
    full_file_path "a/b" "c.txt" = "a/b/c.txt"
    ∧ full_file_path_win "a/b" "c.txt" = "a/b/c.txt" :=
  c5_path_normalization "a/b" "c.txt" (by decide) (by decide) (by decide) (by decide) (by decide)

/-! ### C6 — ledger corruption is non-fatal -/

/-- C6: binding against an unreadable or malformed backing file completes
(the loader is a total function), leaves the completed-set empty and
emits the warning; a missing backing file (or a readable document without
the key) yields an empty set without warning. -/
theorem c6_ledger_corruption_nonfatal :
    load_downloaded_files LedgerFile.unreadable = ([], true)
    ∧ load_downloaded_files LedgerFile.missing = ([], false)
    ∧ load_downloaded_files (LedgerFile.valid none) = ([], false) :=
  ⟨rfl, rfl, rfl⟩

/-! ### C7 — clear() semantics -/

/-- C7 counterexample: with the backing file absent but a nonempty
in-memory set, `clear_download_log` does not empty the set (the reset is
inside the `os.path.exists` branch), refuting "for every ledger state,
the clear operation empties the in-memory completed-set". -/
theorem c7_clear_counterexample :
    (clear_download_log (LedgerState.mk false ["/r/a"])).downloaded = ["/r/a"]
    ∧ ["/r/a"] ≠ ([] : List String) := by
  constructor
  · rfl
  · decide

/-- C7 (amended): when the backing file exists, clear empties the
in-memory set and deletes the file; when the file is absent, clear
leaves the state unchanged (so an already empty/absent ledger stays
empty/absent and nothing fails), and clear is idempotent on every
state. -/
theorem c7_clear_semantics (st : LedgerState) :
    (st.backing_file_exists = true → clear_download_log st = LedgerState.mk false [])
    ∧ (st.backing_file_exists = false → clear_download_log st = st)
    ∧ clear_download_log (clear_download_log st) = clear_download_log st := by
  rcases st with ⟨fe, dl⟩
  cases fe <;> simp [clear_download_log]

/-- C7 witness: clearing a bound ledger whose backing file exists empties
it, and a second clear is a no-op. -/
theorem c7_clear_semantics_witness :
    clear_download_log (LedgerState.mk true ["/r/a"]) = LedgerState.mk false []
    ∧ clear_download_log (clear_download_log (LedgerState.mk true ["/r/a"]))
        = clear_download_log (LedgerState.mk true ["/r/a"]) :=
  ⟨(c7_clear_semantics (LedgerState.mk true ["/r/a"])).1 rfl,
    (c7_clear_semantics (LedgerState.mk true ["/r/a"])).2.2⟩

/-! ### C8 — directory ensure algorithm -/

/-- C8: (1) ensuring a root or empty path (anything whose rstrip is
empty) succeeds with no remote call; (2) existence of a path is decided
by listing its parent and finding an entry whose name equals the final
segment with `is_dir` true; (3) ensuring `/x/y/z` when `/x` does not
exist checks `/x/y/z`, `/x/y`, `/x` for pre-existence and then creates
`/x`, `/x/y`, `/x/y/z`, in that order. -/
theorem c8_ensure_directory_algorithm :
    (∀ (created : List String) (remote_path : String), rstrip_slash remote_path = "" →
        ensure_remote_directory created remote_path = (created, true, []))
    ∧ (∀ (created : List String) (remote_path : String),
        check_directory_exists created remote_path = true ↔
          ∃ item ∈ remote_listing created (parent_dir remote_path),
            item.is_dir = true ∧ item.name = last_segment remote_path)
    ∧ ensure_remote_directory [] "/x/y/z" =
        (["/x/y/z", "/x/y", "/x"], true,
          [REvent.check "/x/y/z", REvent.check "/x/y", REvent.check "/x",
           REvent.mkdir "/x", REvent.mkdir "/x/y", REvent.mkdir "/x/y/z"]) := by
  refine ⟨?_, ?_, by decide⟩
  · intro created remote_path h
    simp [ensure_remote_directory, ensure_remote_directory_aux, h]
  · intro created remote_path
    simp [check_directory_exists, List.any_eq_true, Bool.and_eq_true, decide_eq_true_eq]

/-- C8 witness: ensuring the root path over a nonempty remote state makes
no remote call, and the existence check of an existing directory is
witnessed by the parent-listing entry. -/
theorem c8_ensure_directory_algorithm_witness :
    ensure_remote_directory ["/a"] "/" = (["/a"], true, [])
    ∧ check_directory_exists ["/a"] "/a" = true :=
  ⟨c8_ensure_directory_algorithm.1 ["/a"] "/" (by decide),
    (c8_ensure_directory_algorithm.2.1 ["/a"] "/a").mpr
      ⟨Entry.mk "a" true 0, by decide, rfl, by decide⟩⟩

/-! ### C9 — single-file routing -/

/-- C9: whenever the parent listing of the remote path contains an entry
whose name is the path's basename with `is_dir` false, `batch_download`
dispatches to the single-file path (no tree traversal), for every value
of the recursive flag and of the depth cap. -/
theorem c9_single_file_routing (listing_of : String → List Entry) (remote_path : String)
    (recursive : Bool) (max_depth : Option Nat)
    (h : ∃ item ∈ listing_of (parent_dir remote_path),
      item.name = last_segment remote_path ∧ item.is_dir = false) :
    batch_download_route listing_of remote_path recursive max_depth = BatchRoute.single := by
  have hs : is_single_file listing_of remote_path = true := by
    rcases h with ⟨item, hmem, hname, hdir⟩
    simp only [is_single_file, List.any_eq_true]
    exact ⟨item, hmem, by simp [hname, hdir]⟩
  simp [batch_download_route, hs]

/-- C9 witness: a path whose parent listing holds a matching
non-directory entry is routed to single-file transfer even with
`recursive = true` and a depth cap configured. -/
theorem c9_single_file_routing_witness :
    batch_download_route (fun _ => [Entry.mk "f.txt" false 3]) "/d/f.txt" true (some 2)
      = BatchRoute.single :=
  c9_single_file_routing (fun _ => [Entry.mk "f.txt" false 3]) "/d/f.txt" true (some 2)
    ⟨Entry.mk "f.txt" false 3, by decide, by decide, rfl⟩

/-! ### C10 — ledger-bound skip invariants -/

/-- C10: with a ledger bound, `download_file` on a file whose full
LogicalPath is already in the completed-set returns success without
invoking the external transfer command and without changing the ledger,
and the per-directory loop counts that skip as a success while its
invocation count is untouched; before any ledger is bound,
`save_downloaded_file` adds nothing, and the membership check on the
initial (empty) set is false for every path. -/
theorem c10_skip_invariants (xfer : String → Bool) (downloaded : List String)
    (remote_path filename : String) (sz : Nat) (rest : List RNode) :
    (is_file_downloaded downloaded (full_file_path remote_path filename) = true →
      download_file xfer true downloaded remote_path filename = (downloaded, true, false)
      ∧ (download_files xfer remote_path downloaded (RNode.file filename sz :: rest)).2.1
          = 1 + (download_files xfer remote_path downloaded rest).2.1
      ∧ (download_files xfer remote_path downloaded (RNode.file filename sz :: rest)).2.2
          = (download_files xfer remote_path downloaded rest).2.2)
    ∧ (∀ path, save_downloaded_file false downloaded path = downloaded)
    ∧ (∀ path, is_file_downloaded [] path = false) := by
  refine ⟨fun h => ?_, fun path => rfl, fun path => by simp [is_file_downloaded]⟩
  have hd : download_file xfer true downloaded remote_path filename
      = (downloaded, true, false) := by
    simp [download_file, h]
  refine ⟨hd, ?_, ?_⟩ <;> simp [download_files, RNode.name, hd]

/-- C10 witness: a concrete already-recorded path is skipped with success
and no invocation, and the unbound/initial ledger facts hold at a
concrete path. -/
theorem c10_skip_invariants_witness :
    download_file (fun _ => false) true ["/r/a"] "/r" "a" = (["/r/a"], true, false)
    ∧ save_downloaded_file false ["/r/a"] "/q" = ["/r/a"]
    ∧ is_file_downloaded [] "/q" = false := by
  have h := c10_skip_invariants (fun _ => false) ["/r/a"] "/r" "a" 0 []
  exact ⟨(h.1 (by decide)).1, h.2.1 "/q", h.2.2 "/q"⟩

end AList

namespace AList

/-! ### Induction principle for the nested tree -/

/-- Induction over listings: to prove a property of every listing it
suffices to prove it for the empty listing, for a file entry consed on,
and for a directory entry consed on given the property for the
directory's children and for the remainder. -/
theorem nestedListInduction (motive : List RNode → Prop)
    (hnil : motive [])
    (hfile : ∀ (nm : String) (sz : Nat) (rest : List RNode),
      motive rest → motive (RNode.file nm sz :: rest))
    (hdir : ∀ (nm : String) (c rest : List RNode),
      motive c → motive rest → motive (RNode.dir nm c :: rest)) :
    ∀ l, motive l
  | [] => hnil
  | RNode.file nm sz :: rest =>
      hfile nm sz rest (nestedListInduction motive hnil hfile hdir rest)
  | RNode.dir nm c :: rest =>
      hdir nm c rest (nestedListInduction motive hnil hfile hdir c)
        (nestedListInduction motive hnil hfile hdir rest)

/-! ### Small facts about the building blocks -/

/-- Filtering an empty listing yields no files. -/
theorem filter_files_nil (p : Option String) : filter_files p [] = [] := by
  cases p with
  | none => rfl
  | some pat => by_cases h : pat = "" <;> simp [filter_files, h]

/-- Membership reading of the ledger check. -/
theorem is_file_downloaded_iff (downloaded : List String) (path : String) :
    is_file_downloaded downloaded path = true ↔ path ∈ downloaded := by
  simp [is_file_downloaded]

/-- A skipped file: already-recorded paths short-circuit `download_file`. -/
theorem download_file_skip (xfer : String → Bool) (downloaded : List String)
    (remote_path filename : String)
    (h : full_file_path remote_path filename ∈ downloaded) :
    download_file xfer true downloaded remote_path filename = (downloaded, true, false) := by
  simp [download_file, is_file_downloaded, h]

/-- `download_file` never removes ledger entries. -/
theorem download_file_mono (xfer : String → Bool) (b : Bool) (downloaded : List String)
    (remote_path filename q : String) (h : q ∈ downloaded) :
    q ∈ (download_file xfer b downloaded remote_path filename).1 := by
  unfold download_file
  by_cases h1 : is_file_downloaded downloaded (full_file_path remote_path filename) = true
  · simp [h1, h]
  · by_cases h2 : xfer (full_file_path remote_path filename) = true <;>
      simp [h1, h2, save_downloaded_file] <;>
      cases b <;> simp [h]

/-- With the all-true oracle, `download_file` leaves the file's full path
in the ledger. -/
theorem download_file_true_mem (downloaded : List String) (remote_path filename : String) :
    full_file_path remote_path filename
      ∈ (download_file (fun _ => true) true downloaded remote_path filename).1 := by
  unfold download_file
  by_cases h1 : is_file_downloaded downloaded (full_file_path remote_path filename) = true
  · simpa [h1] using (is_file_downloaded_iff downloaded _).1 h1
  · simp [h1, save_downloaded_file]

/-- If `download_file` did not invoke the external command, the file was
already recorded, the ledger is unchanged, and success was reported. -/
theorem download_file_inv_eq_false (xfer : String → Bool) (downloaded : List String)
    (remote_path filename : String)
    (h : (download_file xfer true downloaded remote_path filename).2.2 = false) :
    (download_file xfer true downloaded remote_path filename).1 = downloaded
    ∧ full_file_path remote_path filename ∈ downloaded
    ∧ (download_file xfer true downloaded remote_path filename).2.1 = true := by
  unfold download_file at h ⊢
  by_cases h1 : is_file_downloaded downloaded (full_file_path remote_path filename) = true
  · exact ⟨by simp [h1], (is_file_downloaded_iff downloaded _).1 h1, by simp [h1]⟩
  · by_cases h2 : xfer (full_file_path remote_path filename) = true <;> simp [h1, h2] at h

/-- The file loop never removes ledger entries. -/
theorem download_files_mono (xfer : String → Bool) (remote_path : String)
    (files : List RNode) :
    ∀ (downloaded : List String) (q : String), q ∈ downloaded →
      q ∈ (download_files xfer remote_path downloaded files).1 := by
  induction files with
  | nil => intro downloaded q h; simpa [download_files] using h
  | cons f rest ih =>
      intro downloaded q h
      simp only [download_files]
      exact ih _ q (download_file_mono xfer true downloaded remote_path f.name q h)

/-- When every file of the level is already recorded, the file loop skips
them all: ledger unchanged, every file a success, zero invocations. -/
theorem download_files_skip_all (xfer : String → Bool) (remote_path : String)
    (files : List RNode) :
    ∀ (downloaded : List String),
      (∀ f ∈ files, full_file_path remote_path f.name ∈ downloaded) →
      download_files xfer remote_path downloaded files = (downloaded, files.length, 0) := by
  induction files with
  | nil => intro downloaded _; simp [download_files]
  | cons f rest ih =>
      intro downloaded h
      have hf := download_file_skip xfer downloaded remote_path f.name
        (h f (List.mem_cons_self f rest))
      have hr := ih downloaded (fun g hg => h g (List.mem_cons_of_mem f hg))
      simp [download_files, hf, hr, Nat.add_comm]

/-- With the all-true oracle, every file of the level ends up recorded. -/
theorem download_files_true_mem (remote_path : String) (files : List RNode) :
    ∀ (downloaded : List String), ∀ f ∈ files,
      full_file_path remote_path f.name
        ∈ (download_files (fun _ => true) remote_path downloaded files).1 := by
  induction files with
  | nil => intro downloaded f hf; simp at hf
  | cons g rest ih =>
      intro downloaded f hf
      rcases List.mem_cons.1 hf with h | h
      · subst h
        simp only [download_files]
        exact download_files_mono _ remote_path rest _ _
          (download_file_true_mem downloaded remote_path f.name)
      · simp only [download_files]
        exact ih _ f h

/-- A file loop with zero invocations left the ledger unchanged and found
every file already recorded, reporting them all as successes. -/
theorem download_files_inv_zero (xfer : String → Bool) (remote_path : String)
    (files : List RNode) :
    ∀ (downloaded : List String),
      (download_files xfer remote_path downloaded files).2.2 = 0 →
      (download_files xfer remote_path downloaded files).1 = downloaded
      ∧ (∀ f ∈ files, full_file_path remote_path f.name ∈ downloaded)
      ∧ (download_files xfer remote_path downloaded files).2.1 = files.length := by
  induction files with
  | nil => intro downloaded _; simp [download_files]
  | cons f rest ih =>
      intro downloaded h
      simp only [download_files] at h ⊢
      have hinv : (download_file xfer true downloaded remote_path f.name).2.2 = false := by
        by_contra hc
        rw [Bool.not_eq_false] at hc
        simp [hc] at h
      rcases download_file_inv_eq_false xfer downloaded remote_path f.name hinv with
        ⟨hled, hmem, hsucc⟩
      rw [hled] at h ⊢
      have h0 : (download_files xfer remote_path downloaded rest).2.2 = 0 := by
        simpa [hinv] using h
      rcases ih downloaded h0 with ⟨ih1, ih2, ih3⟩
      refine ⟨ih1, ?_, ?_⟩
      · intro g hg
        rcases List.mem_cons.1 hg with h' | h'
        · subst h'; exact hmem
        · exact ih2 g h'
      · simp [hsucc, ih3, Nat.add_comm]

end AList

namespace AList

/-! ### Unfolding equations for the subdirectory loops -/

theorem download_subdirs_nil (xfer : String → Bool) (p : Option String) (md : Option Nat)
    (rp : String) (d : Nat) (downloaded : List String) :
    download_subdirs xfer p md rp d downloaded [] = RunAcc.mk downloaded 0 0 0 := by
  rw [download_subdirs]

theorem download_subdirs_cons_file (xfer : String → Bool) (p : Option String) (md : Option Nat)
    (rp : String) (d : Nat) (downloaded : List String) (nm : String) (sz : Nat)
    (rest : List RNode) :
    download_subdirs xfer p md rp d downloaded (RNode.file nm sz :: rest)
      = download_subdirs xfer p md rp d downloaded rest := by
  rw [download_subdirs]

/-- The directory case of the subdirectory loop is one recursive
transfer of the child followed by the loop on the remainder from the
child's final ledger. -/
theorem download_subdirs_cons_dir (xfer : String → Bool) (p : Option String) (md : Option Nat)
    (rp : String) (d : Nat) (downloaded : List String) (nm : String) (c rest : List RNode) :
    download_subdirs xfer p md rp d downloaded (RNode.dir nm c :: rest)
      = RunAcc.mk
          (download_subdirs xfer p md rp d
            (recursive_download xfer p md (rp ++ "/" ++ nm) (d + 1) c downloaded).ledger
            rest).ledger
          ((recursive_download xfer p md (rp ++ "/" ++ nm) (d + 1) c downloaded).succ
            + (download_subdirs xfer p md rp d
                (recursive_download xfer p md (rp ++ "/" ++ nm) (d + 1) c downloaded).ledger
                rest).succ)
          ((recursive_download xfer p md (rp ++ "/" ++ nm) (d + 1) c downloaded).attempted
            + (download_subdirs xfer p md rp d
                (recursive_download xfer p md (rp ++ "/" ++ nm) (d + 1) c downloaded).ledger
                rest).attempted)
          ((recursive_download xfer p md (rp ++ "/" ++ nm) (d + 1) c downloaded).invoked
            + (download_subdirs xfer p md rp d
                (recursive_download xfer p md (rp ++ "/" ++ nm) (d + 1) c downloaded).ledger
                rest).invoked) := by
  rw [download_subdirs]
  rfl

theorem stats_subdirs_nil (p : Option String) (md : Option Nat) (d : Nat) :
    stats_subdirs p md d [] = Stats.mk 0 0 0 := by
  rw [stats_subdirs]

theorem stats_subdirs_cons_file (p : Option String) (md : Option Nat) (d : Nat)
    (nm : String) (sz : Nat) (rest : List RNode) :
    stats_subdirs p md d (RNode.file nm sz :: rest) = stats_subdirs p md d rest := by
  rw [stats_subdirs]

theorem stats_subdirs_cons_dir (p : Option String) (md : Option Nat) (d : Nat)
    (nm : String) (c rest : List RNode) :
    stats_subdirs p md d (RNode.dir nm c :: rest)
      = Stats.mk
          ((get_directory_stats p md (d + 1) c).files + (stats_subdirs p md d rest).files)
          ((get_directory_stats p md (d + 1) c).size + (stats_subdirs p md d rest).size)
          ((get_directory_stats p md (d + 1) c).dirs + (stats_subdirs p md d rest).dirs) := by
  rw [stats_subdirs]
  rfl

theorem count_downloaded_subdirs_nil (dl : List String) (p : Option String) (rp : String) :
    count_downloaded_subdirs dl p rp [] = 0 := by
  rw [count_downloaded_subdirs]

theorem count_downloaded_subdirs_cons_file (dl : List String) (p : Option String) (rp : String)
    (nm : String) (sz : Nat) (rest : List RNode) :
    count_downloaded_subdirs dl p rp (RNode.file nm sz :: rest)
      = count_downloaded_subdirs dl p rp rest := by
  rw [count_downloaded_subdirs]

theorem count_downloaded_subdirs_cons_dir (dl : List String) (p : Option String) (rp : String)
    (nm : String) (c rest : List RNode) :
    count_downloaded_subdirs dl p rp (RNode.dir nm c :: rest)
      = count_downloaded_files_recursive dl p (rp ++ "/" ++ nm) c
        + count_downloaded_subdirs dl p rp rest := by
  rw [count_downloaded_subdirs]
  rfl

theorem spec_reachable_sub_nil (p : Option String) (md : Option Nat) (rp : String) (d : Nat) :
    spec_reachable_sub p md rp d [] = [] := by
  rw [spec_reachable_sub]

theorem spec_reachable_sub_cons_file (p : Option String) (md : Option Nat) (rp : String)
    (d : Nat) (nm : String) (sz : Nat) (rest : List RNode) :
    spec_reachable_sub p md rp d (RNode.file nm sz :: rest)
      = spec_reachable_sub p md rp d rest := by
  rw [spec_reachable_sub]

theorem spec_reachable_sub_cons_dir (p : Option String) (md : Option Nat) (rp : String)
    (d : Nat) (nm : String) (c rest : List RNode) :
    spec_reachable_sub p md rp d (RNode.dir nm c :: rest)
      = spec_reachable_files p md (rp ++ "/" ++ nm) (d + 1) c
        ++ spec_reachable_sub p md rp d rest := by
  rw [spec_reachable_sub]
  rfl

/-- On a depth-guarded or empty child the reachable set is empty. -/
theorem spec_reachable_files_guard (p : Option String) (md : Option Nat) (rp : String)
    (d : Nat) (l : List RNode) (h : depth_exceeded md d = true ∨ l = []) :
    spec_reachable_files p md rp d l = [] := by
  rcases h with h | h
  · simp [spec_reachable_files, h]
  · subst h
    simp [spec_reachable_files, filter_files_nil, spec_reachable_sub_nil]

/-- The reachable set of an active (unguarded, nonempty) listing is the
level files followed by the subdirectory contribution. -/
theorem spec_reachable_files_active (p : Option String) (md : Option Nat) (rp : String)
    (d : Nat) (l : List RNode) (h : depth_exceeded md d = false) :
    spec_reachable_files p md rp d l
      = (filter_files p l).map (fun f => (full_file_path rp f.name, f.size))
        ++ spec_reachable_sub p md rp d l := by
  simp [spec_reachable_files, h]

end AList

namespace AList

/-- The subdirectory loop never removes ledger entries. -/
theorem download_subdirs_mono (xfer : String → Bool) (p : Option String) (md : Option Nat)
    (l : List RNode) :
    ∀ (rp : String) (d : Nat) (downloaded : List String) (q : String), q ∈ downloaded →
      q ∈ (download_subdirs xfer p md rp d downloaded l).ledger := by
  induction l using nestedListInduction with
  | hnil =>
      intro rp d downloaded q h
      rw [download_subdirs_nil]
      exact h
  | hfile nm sz rest ih =>
      intro rp d downloaded q h
      rw [download_subdirs_cons_file]
      exact ih rp d downloaded q h
  | hdir nm c rest ihc ihr =>
      intro rp d downloaded q h
      rw [download_subdirs_cons_dir]
      show q ∈ (download_subdirs xfer p md rp d
          (recursive_download xfer p md (rp ++ "/" ++ nm) (d + 1) c downloaded).ledger
          rest).ledger
      apply ihr
      unfold recursive_download
      by_cases h1 : depth_exceeded md (d + 1) = true
      · simpa [h1] using h
      · by_cases h2 : c.isEmpty = true
        · simpa [h1, h2] using h
        · simp only [if_neg h1, if_neg h2]
          exact ihc (rp ++ "/" ++ nm) (d + 1) _ q
            (download_files_mono xfer (rp ++ "/" ++ nm) (filter_files p c) downloaded q h)

/-- One recursive transfer of a child whose reachable files are all in
the ledger skips everything: ledger unchanged, every reachable file a
success, zero invocations; given the same fact for the child's
subdirectory loop. -/
theorem recursive_download_skip_all_of (xfer : String → Bool) (p : Option String)
    (md : Option Nat) (rp : String) (d : Nat) (c : List RNode) (downloaded : List String)
    (hsub : (∀ pr ∈ spec_reachable_sub p md rp d c, pr.1 ∈ downloaded) →
      download_subdirs xfer p md rp d downloaded c
        = RunAcc.mk downloaded (spec_reachable_sub p md rp d c).length
            (spec_reachable_sub p md rp d c).length 0)
    (h : ∀ pr ∈ spec_reachable_files p md rp d c, pr.1 ∈ downloaded) :
    recursive_download xfer p md rp d c downloaded
      = RunAcc.mk downloaded (spec_reachable_files p md rp d c).length
          (spec_reachable_files p md rp d c).length 0 := by
  by_cases h1 : depth_exceeded md d = true
  · rw [spec_reachable_files_guard p md rp d c (Or.inl h1)]
    unfold recursive_download
    simp [h1]
  · by_cases h2 : c.isEmpty = true
    · have hnil := List.isEmpty_iff.1 h2
      subst hnil
      rw [spec_reachable_files_guard p md rp d [] (Or.inr rfl)]
      unfold recursive_download
      simp [h1]
    · have hb1 : depth_exceeded md d = false := by simpa using h1
      rw [spec_reachable_files_active p md rp d c hb1] at h ⊢
      have hlvl : ∀ f ∈ filter_files p c, full_file_path rp f.name ∈ downloaded := by
        intro f hf
        exact h _ (List.mem_append_left _ (List.mem_map_of_mem _ hf))
      have hs : ∀ pr ∈ spec_reachable_sub p md rp d c, pr.1 ∈ downloaded := by
        intro pr hpr
        exact h pr (List.mem_append_right _ hpr)
      have hfiles := download_files_skip_all xfer rp (filter_files p c) downloaded hlvl
      have hsubeq := hsub hs
      unfold recursive_download
      rw [if_neg h1, if_neg h2]
      show RunAcc.mk
          (download_subdirs xfer p md rp d
            (download_files xfer rp downloaded (filter_files p c)).1 c).ledger
          ((download_files xfer rp downloaded (filter_files p c)).2.1
            + (download_subdirs xfer p md rp d
                (download_files xfer rp downloaded (filter_files p c)).1 c).succ)
          ((filter_files p c).length
            + (download_subdirs xfer p md rp d
                (download_files xfer rp downloaded (filter_files p c)).1 c).attempted)
          ((download_files xfer rp downloaded (filter_files p c)).2.2
            + (download_subdirs xfer p md rp d
                (download_files xfer rp downloaded (filter_files p c)).1 c).invoked)
        = _
      rw [hfiles]
      show RunAcc.mk (download_subdirs xfer p md rp d downloaded c).ledger
          ((filter_files p c).length + (download_subdirs xfer p md rp d downloaded c).succ)
          ((filter_files p c).length
            + (download_subdirs xfer p md rp d downloaded c).attempted)
          (0 + (download_subdirs xfer p md rp d downloaded c).invoked)
        = _
      rw [hsubeq]
      simp [List.length_append]

/-- With the all-true oracle, every reachable file of a child transfer
ends up in its final ledger, given the same fact for the child's
subdirectory loop. -/
theorem recursive_download_true_mem_of (p : Option String) (md : Option Nat) (rp : String)
    (d : Nat) (c : List RNode) (downloaded : List String)
    (hsub : ∀ (dl : List String), ∀ pr ∈ spec_reachable_sub p md rp d c,
      pr.1 ∈ (download_subdirs (fun _ => true) p md rp d dl c).ledger) :
    ∀ pr ∈ spec_reachable_files p md rp d c,
      pr.1 ∈ (recursive_download (fun _ => true) p md rp d c downloaded).ledger := by
  intro pr hpr
  by_cases h1 : depth_exceeded md d = true
  · rw [spec_reachable_files_guard p md rp d c (Or.inl h1)] at hpr
    simp at hpr
  · by_cases h2 : c.isEmpty = true
    · have hnil := List.isEmpty_iff.1 h2
      subst hnil
      rw [spec_reachable_files_guard p md rp d [] (Or.inr rfl)] at hpr
      simp at hpr
    · have hb1 : depth_exceeded md d = false := by simpa using h1
      rw [spec_reachable_files_active p md rp d c hb1] at hpr
      unfold recursive_download
      rw [if_neg h1, if_neg h2]
      show pr.1 ∈ (download_subdirs (fun _ => true) p md rp d
          (download_files (fun _ => true) rp downloaded (filter_files p c)).1 c).ledger
      rcases List.mem_append.1 hpr with hL | hS
      · rcases List.mem_map.1 hL with ⟨f, hf, rfl⟩
        exact download_subdirs_mono (fun _ => true) p md c rp d _ _
          (download_files_true_mem rp (filter_files p c) downloaded f hf)
      · exact hsub _ pr hS

/-- A child transfer with zero invocations left the ledger unchanged and
found every reachable file already recorded, given the same fact for the
child's subdirectory loop. -/
theorem recursive_download_inv_zero_of (xfer : String → Bool) (p : Option String)
    (md : Option Nat) (rp : String) (d : Nat) (c : List RNode) (downloaded : List String)
    (hsub : ∀ (dl : List String),
      (download_subdirs xfer p md rp d dl c).invoked = 0 →
      (download_subdirs xfer p md rp d dl c).ledger = dl
      ∧ ∀ pr ∈ spec_reachable_sub p md rp d c, pr.1 ∈ dl)
    (h : (recursive_download xfer p md rp d c downloaded).invoked = 0) :
    (recursive_download xfer p md rp d c downloaded).ledger = downloaded
    ∧ ∀ pr ∈ spec_reachable_files p md rp d c, pr.1 ∈ downloaded := by
  by_cases h1 : depth_exceeded md d = true
  · constructor
    · unfold recursive_download
      simp [h1]
    · rw [spec_reachable_files_guard p md rp d c (Or.inl h1)]
      intro pr hpr
      simp at hpr
  · by_cases h2 : c.isEmpty = true
    · have hnil := List.isEmpty_iff.1 h2
      subst hnil
      constructor
      · unfold recursive_download
        simp [h1]
      · rw [spec_reachable_files_guard p md rp d [] (Or.inr rfl)]
        intro pr hpr
        simp at hpr
    · have hb1 : depth_exceeded md d = false := by simpa using h1
      unfold recursive_download at h ⊢
      rw [if_neg h1, if_neg h2] at h ⊢
      have h' : (download_files xfer rp downloaded (filter_files p c)).2.2
          + (download_subdirs xfer p md rp d
              (download_files xfer rp downloaded (filter_files p c)).1 c).invoked = 0 := h
      have hf0 : (download_files xfer rp downloaded (filter_files p c)).2.2 = 0 := by omega
      rcases download_files_inv_zero xfer rp (filter_files p c) downloaded hf0 with
        ⟨hfl, hfm, _⟩
      rw [hfl] at h'
      have hs0 : (download_subdirs xfer p md rp d downloaded c).invoked = 0 := by omega
      rcases hsub downloaded hs0 with ⟨hsl, hsm⟩
      constructor
      · show (download_subdirs xfer p md rp d
            (download_files xfer rp downloaded (filter_files p c)).1 c).ledger = downloaded
        rw [hfl, hsl]
      · rw [spec_reachable_files_active p md rp d c hb1]
        intro pr hpr
        rcases List.mem_append.1 hpr with hL | hS
        · rcases List.mem_map.1 hL with ⟨f, hf, rfl⟩
          exact hfm f hf
        · exact hsm pr hS

/-- When every reachable file of the subdirectories is already recorded,
the subdirectory loop skips everything. -/
theorem download_subdirs_skip_all (xfer : String → Bool) (p : Option String) (md : Option Nat)
    (l : List RNode) :
    ∀ (rp : String) (d : Nat) (downloaded : List String),
      (∀ pr ∈ spec_reachable_sub p md rp d l, pr.1 ∈ downloaded) →
      download_subdirs xfer p md rp d downloaded l
        = RunAcc.mk downloaded (spec_reachable_sub p md rp d l).length
            (spec_reachable_sub p md rp d l).length 0 := by
  induction l using nestedListInduction with
  | hnil =>
      intro rp d downloaded _
      rw [download_subdirs_nil, spec_reachable_sub_nil]
      rfl
  | hfile nm sz rest ih =>
      intro rp d downloaded h
      rw [spec_reachable_sub_cons_file] at h ⊢
      rw [download_subdirs_cons_file]
      exact ih rp d downloaded h
  | hdir nm c rest ihc ihr =>
      intro rp d downloaded h
      rw [spec_reachable_sub_cons_dir] at h ⊢
      have hc : ∀ pr ∈ spec_reachable_files p md (rp ++ "/" ++ nm) (d + 1) c,
          pr.1 ∈ downloaded :=
        fun pr hpr => h pr (List.mem_append_left _ hpr)
      have hr : ∀ pr ∈ spec_reachable_sub p md rp d rest, pr.1 ∈ downloaded :=
        fun pr hpr => h pr (List.mem_append_right _ hpr)
      have ha1 := recursive_download_skip_all_of xfer p md (rp ++ "/" ++ nm) (d + 1) c
        downloaded (ihc (rp ++ "/" ++ nm) (d + 1) downloaded) hc
      rw [download_subdirs_cons_dir, ha1]
      show RunAcc.mk (download_subdirs xfer p md rp d downloaded rest).ledger
          ((spec_reachable_files p md (rp ++ "/" ++ nm) (d + 1) c).length
            + (download_subdirs xfer p md rp d downloaded rest).succ)
          ((spec_reachable_files p md (rp ++ "/" ++ nm) (d + 1) c).length
            + (download_subdirs xfer p md rp d downloaded rest).attempted)
          (0 + (download_subdirs xfer p md rp d downloaded rest).invoked)
        = _
      rw [ihr rp d downloaded hr]
      simp [List.length_append]

/-- With the all-true oracle, every reachable file of the subdirectories
ends up in the loop's final ledger. -/
theorem download_subdirs_true_mem (p : Option String) (md : Option Nat) (l : List RNode) :
    ∀ (rp : String) (d : Nat) (dl : List String), ∀ pr ∈ spec_reachable_sub p md rp d l,
      pr.1 ∈ (download_subdirs (fun _ => true) p md rp d dl l).ledger := by
  induction l using nestedListInduction with
  | hnil =>
      intro rp d dl pr hpr
      rw [spec_reachable_sub_nil] at hpr
      simp at hpr
  | hfile nm sz rest ih =>
      intro rp d dl pr hpr
      rw [spec_reachable_sub_cons_file] at hpr
      rw [download_subdirs_cons_file]
      exact ih rp d dl pr hpr
  | hdir nm c rest ihc ihr =>
      intro rp d dl pr hpr
      rw [spec_reachable_sub_cons_dir] at hpr
      rw [download_subdirs_cons_dir]
      show pr.1 ∈ (download_subdirs (fun _ => true) p md rp d
          (recursive_download (fun _ => true) p md (rp ++ "/" ++ nm) (d + 1) c dl).ledger
          rest).ledger
      rcases List.mem_append.1 hpr with hL | hR
      · have hmem := recursive_download_true_mem_of p md (rp ++ "/" ++ nm) (d + 1) c dl
          (fun dl' => ihc (rp ++ "/" ++ nm) (d + 1) dl') pr hL
        exact download_subdirs_mono (fun _ => true) p md rest rp d _ _ hmem
      · exact ihr rp d _ pr hR

/-- A subdirectory loop with zero invocations left the ledger unchanged
and found every reachable file already recorded. -/
theorem download_subdirs_inv_zero (xfer : String → Bool) (p : Option String) (md : Option Nat)
    (l : List RNode) :
    ∀ (rp : String) (d : Nat) (dl : List String),
      (download_subdirs xfer p md rp d dl l).invoked = 0 →
      (download_subdirs xfer p md rp d dl l).ledger = dl
      ∧ ∀ pr ∈ spec_reachable_sub p md rp d l, pr.1 ∈ dl := by
  induction l using nestedListInduction with
  | hnil =>
      intro rp d dl _
      rw [download_subdirs_nil, spec_reachable_sub_nil]
      exact ⟨rfl, by intro pr hpr; simp at hpr⟩
  | hfile nm sz rest ih =>
      intro rp d dl h
      rw [download_subdirs_cons_file] at h
      rw [download_subdirs_cons_file, spec_reachable_sub_cons_file]
      exact ih rp d dl h
  | hdir nm c rest ihc ihr =>
      intro rp d dl h
      rw [download_subdirs_cons_dir] at h
      have h' : (recursive_download xfer p md (rp ++ "/" ++ nm) (d + 1) c dl).invoked
          + (download_subdirs xfer p md rp d
              (recursive_download xfer p md (rp ++ "/" ++ nm) (d + 1) c dl).ledger
              rest).invoked = 0 := h
      have ha0 : (recursive_download xfer p md (rp ++ "/" ++ nm) (d + 1) c dl).invoked = 0 := by
        omega
      rcases recursive_download_inv_zero_of xfer p md (rp ++ "/" ++ nm) (d + 1) c dl
          (fun dl' => ihc (rp ++ "/" ++ nm) (d + 1) dl') ha0 with ⟨hal, ham⟩
      rw [hal] at h'
      have hr0 : (download_subdirs xfer p md rp d dl rest).invoked = 0 := by omega
      rcases ihr rp d dl hr0 with ⟨hrl, hrm⟩
      constructor
      · rw [download_subdirs_cons_dir]
        show (download_subdirs xfer p md rp d
            (recursive_download xfer p md (rp ++ "/" ++ nm) (d + 1) c dl).ledger
            rest).ledger = dl
        rw [hal, hrl]
      · rw [spec_reachable_sub_cons_dir]
        intro pr hpr
        rcases List.mem_append.1 hpr with hL | hR
        · exact ham pr hL
        · exact hrm pr hR

/-- `recursive_download` over a ledger that already holds every reachable
file skips everything: unchanged ledger, all successes, zero external
invocations. -/
theorem recursive_download_skip_all (xfer : String → Bool) (p : Option String)
    (md : Option Nat) (rp : String) (d : Nat) (l : List RNode) (downloaded : List String)
    (h : ∀ pr ∈ spec_reachable_files p md rp d l, pr.1 ∈ downloaded) :
    recursive_download xfer p md rp d l downloaded
      = RunAcc.mk downloaded (spec_reachable_files p md rp d l).length
          (spec_reachable_files p md rp d l).length 0 :=
  recursive_download_skip_all_of xfer p md rp d l downloaded
    (download_subdirs_skip_all xfer p md l rp d downloaded) h

/-- A completed (all-transfers-succeed) run records every reachable
file in the final ledger. -/
theorem recursive_download_true_mem (p : Option String) (md : Option Nat) (rp : String)
    (d : Nat) (l : List RNode) (downloaded : List String) :
    ∀ pr ∈ spec_reachable_files p md rp d l,
      pr.1 ∈ (recursive_download (fun _ => true) p md rp d l downloaded).ledger :=
  recursive_download_true_mem_of p md rp d l downloaded
    (fun dl => download_subdirs_true_mem p md l rp d dl)

/-- A run with zero external invocations left the ledger unchanged and
found every reachable file already recorded. -/
theorem recursive_download_inv_zero (xfer : String → Bool) (p : Option String)
    (md : Option Nat) (rp : String) (d : Nat) (l : List RNode) (downloaded : List String)
    (h : (recursive_download xfer p md rp d l downloaded).invoked = 0) :
    (recursive_download xfer p md rp d l downloaded).ledger = downloaded
    ∧ ∀ pr ∈ spec_reachable_files p md rp d l, pr.1 ∈ downloaded :=
  recursive_download_inv_zero_of xfer p md rp d l downloaded
    (fun dl => download_subdirs_inv_zero xfer p md l rp d dl) h

end AList

namespace AList

/-- Statistics of a child listing agree with the specification-side
reachable files, given the same fact for its subdirectory loop. -/
theorem get_directory_stats_spec_of (p : Option String) (md : Option Nat) (rp : String)
    (d : Nat) (c : List RNode)
    (hsub : (stats_subdirs p md d c).files = (spec_reachable_sub p md rp d c).length
      ∧ (stats_subdirs p md d c).size
          = ((spec_reachable_sub p md rp d c).map Prod.snd).sum) :
    (get_directory_stats p md d c).files = (spec_reachable_files p md rp d c).length
    ∧ (get_directory_stats p md d c).size
        = ((spec_reachable_files p md rp d c).map Prod.snd).sum := by
  by_cases h1 : depth_exceeded md d = true
  · rw [spec_reachable_files_guard p md rp d c (Or.inl h1)]
    unfold get_directory_stats
    simp [h1]
  · by_cases h2 : c.isEmpty = true
    · have hnil := List.isEmpty_iff.1 h2
      subst hnil
      rw [spec_reachable_files_guard p md rp d [] (Or.inr rfl)]
      unfold get_directory_stats
      simp [h1]
    · have hb1 : depth_exceeded md d = false := by simpa using h1
      rw [spec_reachable_files_active p md rp d c hb1]
      unfold get_directory_stats
      rw [if_neg h1, if_neg h2]
      rcases hsub with ⟨ihf, ihs⟩
      constructor
      · show (filter_files p c).length + (stats_subdirs p md d c).files = _
        rw [ihf]
        simp [List.length_append]
      · show level_size (filter_files p c) + (stats_subdirs p md d c).size = _
        rw [ihs]
        simp only [level_size, List.map_append, List.sum_append, List.map_map]
        congr 2

/-- The subdirectory statistics loop counts exactly the reachable files
of the subdirectories, with their exact total size. -/
theorem stats_subdirs_spec (p : Option String) (md : Option Nat) (l : List RNode) :
    ∀ (rp : String) (d : Nat),
      (stats_subdirs p md d l).files = (spec_reachable_sub p md rp d l).length
      ∧ (stats_subdirs p md d l).size
          = ((spec_reachable_sub p md rp d l).map Prod.snd).sum := by
  induction l using nestedListInduction with
  | hnil =>
      intro rp d
      rw [stats_subdirs_nil, spec_reachable_sub_nil]
      exact ⟨rfl, rfl⟩
  | hfile nm sz rest ih =>
      intro rp d
      rw [stats_subdirs_cons_file, spec_reachable_sub_cons_file]
      exact ih rp d
  | hdir nm c rest ihc ihr =>
      intro rp d
      rw [stats_subdirs_cons_dir, spec_reachable_sub_cons_dir]
      rcases get_directory_stats_spec_of p md (rp ++ "/" ++ nm) (d + 1) c
        (ihc (rp ++ "/" ++ nm) (d + 1)) with ⟨hf, hs⟩
      rcases ihr rp d with ⟨ihf, ihs⟩
      constructor
      · show (get_directory_stats p md (d + 1) c).files + (stats_subdirs p md d rest).files = _
        rw [hf, ihf]
        simp [List.length_append]
      · show (get_directory_stats p md (d + 1) c).size + (stats_subdirs p md d rest).size = _
        rw [hs, ihs]
        simp [List.map_append, List.sum_append]

/-- Full statistics agree with the specification-side reachable files. -/
theorem get_directory_stats_spec (p : Option String) (md : Option Nat) (rp : String)
    (d : Nat) (l : List RNode) :
    (get_directory_stats p md d l).files = (spec_reachable_files p md rp d l).length
    ∧ (get_directory_stats p md d l).size
        = ((spec_reachable_files p md rp d l).map Prod.snd).sum :=
  get_directory_stats_spec_of p md rp d l (stats_subdirs_spec p md l rp d)

/-- Beyond the depth cap the subdirectory statistics loop contributes
nothing at all. -/
theorem stats_subdirs_depth_guard (p : Option String) (md : Option Nat) (d : Nat)
    (h : depth_exceeded md (d + 1) = true) (l : List RNode) :
    stats_subdirs p md d l = Stats.mk 0 0 0 := by
  induction l with
  | nil => rw [stats_subdirs_nil]
  | cons x rest ih =>
      cases x with
      | file nm sz =>
          rw [stats_subdirs_cons_file]
          exact ih
      | dir nm c =>
          rw [stats_subdirs_cons_dir, ih]
          unfold get_directory_stats
          simp [h]

/-- The downloaded-count of a child listing is the ledger-membership
count over its reachable files (no depth cap on either side), given the
same fact for its subdirectory loop. -/
theorem count_downloaded_spec_of (dl : List String) (p : Option String) (rp : String)
    (d : Nat) (c : List RNode)
    (hsub : count_downloaded_subdirs dl p rp c
      = (spec_reachable_sub p none rp d c).countP (fun pr => is_file_downloaded dl pr.1)) :
    count_downloaded_files_recursive dl p rp c
      = (spec_reachable_files p none rp d c).countP (fun pr => is_file_downloaded dl pr.1) := by
  by_cases h2 : c.isEmpty = true
  · have hnil := List.isEmpty_iff.1 h2
    subst hnil
    rw [spec_reachable_files_guard p none rp d [] (Or.inr rfl)]
    unfold count_downloaded_files_recursive
    simp
  · rw [spec_reachable_files_active p none rp d c rfl]
    unfold count_downloaded_files_recursive
    rw [if_neg h2, List.countP_append, List.countP_map, hsub]
    rfl

/-- The recursive downloaded-count loop over subdirectories is the
ledger-membership count over their reachable files. -/
theorem count_downloaded_subdirs_spec (dl : List String) (p : Option String) (l : List RNode) :
    ∀ (rp : String) (d : Nat),
      count_downloaded_subdirs dl p rp l
        = (spec_reachable_sub p none rp d l).countP (fun pr => is_file_downloaded dl pr.1) := by
  induction l using nestedListInduction with
  | hnil =>
      intro rp d
      rw [count_downloaded_subdirs_nil, spec_reachable_sub_nil]
      rfl
  | hfile nm sz rest ih =>
      intro rp d
      rw [count_downloaded_subdirs_cons_file, spec_reachable_sub_cons_file]
      exact ih rp d
  | hdir nm c rest ihc ihr =>
      intro rp d
      rw [count_downloaded_subdirs_cons_dir, spec_reachable_sub_cons_dir,
        List.countP_append]
      rw [count_downloaded_spec_of dl p (rp ++ "/" ++ nm) (d + 1) c
        (ihc (rp ++ "/" ++ nm) (d + 1)), ihr rp d]

/-- `_count_downloaded_files_recursive` counts exactly the reachable
files whose full logical path is in the ledger. -/
theorem count_downloaded_files_recursive_spec (dl : List String) (p : Option String)
    (rp : String) (l : List RNode) :
    count_downloaded_files_recursive dl p rp l
      = (spec_reachable_files p none rp 0 l).countP (fun pr => is_file_downloaded dl pr.1) :=
  count_downloaded_spec_of dl p rp 0 l (count_downloaded_subdirs_spec dl p l rp 0)

end AList

namespace AList

/-- With `recursive = false`, `batch_download` on a directory path runs
the non-recursive branch, ignoring the depth cap. -/
theorem batch_download_directory_false (xfer : String → Bool) (p : Option String)
    (md : Option Nat) (rp : String) (l : List RNode) (downloaded : List String) :
    batch_download_directory xfer false p md rp l downloaded
      = batch_download_non_recursive xfer p rp l downloaded := by
  unfold batch_download_directory
  simp

/-- A non-recursive run over a ledger that already holds every matching
file of the level is a no-op: nothing remains, nothing is invoked. -/
theorem batch_download_non_recursive_skip_all (xfer : String → Bool) (p : Option String)
    (rp : String) (l : List RNode) (downloaded : List String)
    (h : ∀ f ∈ filter_files p l, full_file_path rp f.name ∈ downloaded) :
    batch_download_non_recursive xfer p rp l downloaded = RunAcc.mk downloaded 0 0 0 := by
  unfold batch_download_non_recursive
  by_cases hl : l.isEmpty = true
  · simp [hl]
  · simp only [if_neg hl]
    by_cases hf : (filter_files p l).isEmpty = true
    · simp [hf]
    · simp only [if_neg hf]
      have hrem : (filter_files p l).filter
          (fun f => !is_file_downloaded downloaded (full_file_path rp f.name)) = [] := by
        rw [List.filter_eq_nil_iff]
        intro f hf'
        simp [is_file_downloaded_iff, h f hf']
      rw [hrem]
      simp

/-- A completed (all-transfers-succeed) non-recursive run records every
matching file of the level in its final ledger. -/
theorem batch_download_non_recursive_true_mem (p : Option String) (rp : String)
    (l : List RNode) (downloaded : List String) :
    ∀ f ∈ filter_files p l, full_file_path rp f.name
      ∈ (batch_download_non_recursive (fun _ => true) p rp l downloaded).ledger := by
  unfold batch_download_non_recursive
  by_cases hl : l.isEmpty = true
  · intro f hf
    have hnil := List.isEmpty_iff.1 hl
    subst hnil
    rw [filter_files_nil] at hf
    simp at hf
  · simp only [if_neg hl]
    by_cases hff : (filter_files p l).isEmpty = true
    · intro f hf
      rw [List.isEmpty_iff.1 hff] at hf
      simp at hf
    · simp only [if_neg hff]
      by_cases hr : ((filter_files p l).filter
          (fun f => !is_file_downloaded downloaded (full_file_path rp f.name))).isEmpty
          = true
      · simp only [if_pos hr]
        intro f hf
        show full_file_path rp f.name ∈ downloaded
        have hnil := List.isEmpty_iff.1 hr
        have hall := (List.filter_eq_nil_iff).1 hnil f hf
        simpa [is_file_downloaded_iff] using hall
      · simp only [if_neg hr]
        intro f hf
        show full_file_path rp f.name
          ∈ (download_files (fun _ => true) rp downloaded
              ((filter_files p l).filter
                (fun g => !is_file_downloaded downloaded (full_file_path rp g.name)))).1
        by_cases hin : is_file_downloaded downloaded (full_file_path rp f.name) = true
        · exact download_files_mono _ rp _ downloaded _ ((is_file_downloaded_iff _ _).1 hin)
        · refine download_files_true_mem rp _ downloaded f ?_
          rw [List.mem_filter]
          exact ⟨hf, by simp [hin]⟩

/-! ### C1 — idempotence of a directory transfer run -/

/-- C1: for every remote tree, filter, recursion flag and depth cap,
running the directory transfer a second time over the ledger produced by
a completed first run (all transfers succeeded: the all-true oracle) and
an unchanged remote listing invokes the external single-file transfer
command zero times, and every file the second run processes is reported a
success (full completion), whatever the second run's oracle. -/
theorem c1_transfer_idempotent (p : Option String) (md : Option Nat) (recursive : Bool)
    (rp : String) (l : List RNode) (downloaded : List String) (xfer2 : String → Bool) :
    (batch_download_directory xfer2 recursive p md rp l
        (batch_download_directory (fun _ => true) recursive p md rp l downloaded).ledger).invoked
      = 0
    ∧ (batch_download_directory xfer2 recursive p md rp l
        (batch_download_directory (fun _ => true) recursive p md rp l downloaded).ledger).succ
      = (batch_download_directory xfer2 recursive p md rp l
          (batch_download_directory (fun _ => true) recursive p md rp l
            downloaded).ledger).attempted := by
  cases recursive with
  | true =>
      by_cases hz : (get_directory_stats p md 0 l).files = 0
      · unfold batch_download_directory
        simp [hz]
      · unfold batch_download_directory
        simp only [if_neg hz, if_pos rfl, if_true]
        rw [recursive_download_skip_all xfer2 p md rp 0 l
          ((recursive_download (fun _ => true) p md rp 0 l downloaded).ledger)
          (recursive_download_true_mem p md rp 0 l downloaded)]
        exact ⟨rfl, rfl⟩
  | false =>
      rw [batch_download_directory_false (fun _ => true) p md rp l downloaded,
        batch_download_directory_false xfer2 p md rp l]
      rw [batch_download_non_recursive_skip_all xfer2 p rp l
        ((batch_download_non_recursive (fun _ => true) p rp l downloaded).ledger)
        (batch_download_non_recursive_true_mem p rp l downloaded)]
      exact ⟨rfl, rfl⟩

/-! ### C2 — completeness of the statistics -/

/-- C2: `get_directory_stats` returns a files count equal to the number
of matching non-directory entries reachable within the depth cap (root
at the starting depth, recursion stopped once the depth exceeds the
cap), with size the sum of their sizes — the reachable files being a
flat list, nothing is counted twice or omitted; and with `max_depth = 0`
the directories listed at the root are still counted in `dirs` even
though nothing below them contributes. -/
theorem c2_stats_completeness (p : Option String) (md : Option Nat) (rp : String)
    (d : Nat) (l : List RNode) :
    (get_directory_stats p md d l).files = (spec_reachable_files p md rp d l).length
    ∧ (get_directory_stats p md d l).size
        = ((spec_reachable_files p md rp d l).map Prod.snd).sum
    ∧ (get_directory_stats p (some 0) 0 l).dirs = (filter_dirs l).length := by
  rcases get_directory_stats_spec p md rp d l with ⟨hf, hs⟩
  refine ⟨hf, hs, ?_⟩
  by_cases h2 : l.isEmpty = true
  · have hnil := List.isEmpty_iff.1 h2
    subst hnil
    unfold get_directory_stats
    simp [filter_dirs]
  · unfold get_directory_stats
    rw [if_neg (by simp [depth_exceeded]), if_neg h2]
    show (filter_dirs l).length + (stats_subdirs p (some 0) 0 l).dirs = (filter_dirs l).length
    rw [stats_subdirs_depth_guard p (some 0) 0 rfl l]
    simp

/-! ### C3 — status/transfer traversal equivalence -/

/-- C3 counterexample: the recursive status query takes no depth cap
(`show_download_status` calls `get_directory_stats` without `max_depth`),
so with a depth cap in play it does not mirror the transfer traversal.
On the tree `[dir "sub" [file "f"]]` with `max_depth = 0`, a completed
capped run leaves the ledger empty and a subsequent capped run performs
zero new transfers, yet the status reports `(0, 1)` with `0 ≠ 1`,
refuting "done == total exactly when a subsequent transfer run would
perform zero new transfers" as quantified over every depth cap. -/
theorem c3_depth_cap_counterexample :
    (batch_download_directory (fun _ => true) true none (some 0) "/r"
        [RNode.dir "sub" [RNode.file "f" 1]]
        (batch_download_directory (fun _ => true) true none (some 0) "/r"
          [RNode.dir "sub" [RNode.file "f" 1]] []).ledger).invoked = 0
    ∧ show_download_status_recursive
        (batch_download_directory (fun _ => true) true none (some 0) "/r"
          [RNode.dir "sub" [RNode.file "f" 1]] []).ledger
        none "/r" [RNode.dir "sub" [RNode.file "f" 1]] = some (0, 1)
    ∧ (0 : Nat) ≠ 1 := by
  have hled : (batch_download_directory (fun _ => true) true none (some 0) "/r"
      [RNode.dir "sub" [RNode.file "f" 1]] []).ledger = [] := by
    simp [batch_download_directory, get_directory_stats, stats_subdirs, filter_files,
      filter_dirs, RNode.isDir, depth_exceeded, level_size]
  refine ⟨?_, ?_, by decide⟩
  · rw [hled]
    simp [batch_download_directory, get_directory_stats, stats_subdirs, filter_files,
      filter_dirs, RNode.isDir, depth_exceeded, level_size]
  · rw [hled]
    simp [show_download_status_recursive, get_directory_stats, stats_subdirs,
      count_downloaded_files_recursive, count_downloaded_subdirs, filter_files, filter_dirs,
      RNode.isDir, depth_exceeded, level_size, is_file_downloaded]

/-- C3 (amended): with no depth cap on either side — the only
configuration in which the status query and the transfer run traverse
the same tree, since the status query never receives a cap — the
reported `(done, total)` satisfies `done ≤ total`, and `done = total`
exactly when a subsequent unbounded transfer run (any oracle) performs
zero new transfers. -/
theorem c3_status_consistency_unbounded (downloaded : List String) (p : Option String)
    (rp : String) (l : List RNode) (xfer : String → Bool) (done total : Nat)
    (h : show_download_status_recursive downloaded p rp l = some (done, total)) :
    done ≤ total
    ∧ (done = total ↔ (recursive_download xfer p none rp 0 l downloaded).invoked = 0) := by
  unfold show_download_status_recursive at h
  by_cases hz : (get_directory_stats p none 0 l).files = 0
  · simp [hz] at h
  · simp only [if_neg hz, Option.some.injEq, Prod.mk.injEq] at h
    rcases h with ⟨hdone, htotal⟩
    subst hdone
    subst htotal
    rw [count_downloaded_files_recursive_spec downloaded p rp l,
      (get_directory_stats_spec p none rp 0 l).1]
    refine ⟨List.countP_le_length _, ?_, ?_⟩
    · intro heq
      have hall := List.countP_eq_length.1 heq
      have hmem : ∀ pr ∈ spec_reachable_files p none rp 0 l, pr.1 ∈ downloaded :=
        fun pr hpr => (is_file_downloaded_iff _ _).1 (hall pr hpr)
      rw [recursive_download_skip_all xfer p none rp 0 l downloaded hmem]
    · intro hinv
      rcases recursive_download_inv_zero xfer p none rp 0 l downloaded hinv with ⟨_, hmem⟩
      exact List.countP_eq_length.2
        (fun pr hpr => (is_file_downloaded_iff _ _).2 (hmem pr hpr))

/-- C3 witness: on a one-file tree with an empty ledger the status
reports `(0, 1)`, `0 ≤ 1` holds, and both sides of the equivalence are
false (a transfer run would invoke the command once). -/
theorem c3_status_consistency_unbounded_witness :
    (0 : Nat) ≤ 1
    ∧ ((0 : Nat) = 1
        ↔ (recursive_download (fun _ => true) none none "/r" 0
            [RNode.file "a.txt" 1] []).invoked = 0) :=
  c3_status_consistency_unbounded [] none "/r" [RNode.file "a.txt" 1] (fun _ => true) 0 1
    (by
      simp [show_download_status_recursive, get_directory_stats, stats_subdirs,
        count_downloaded_files_recursive, count_downloaded_subdirs, filter_files,
        filter_dirs, RNode.isDir, depth_exceeded, level_size, is_file_downloaded])

end AList
